import Mathlib

set_option maxRecDepth 100000

/-!
Shallow embedding of the obsync synchronization engine
(src/plugin/github.ts, src/plugin/func.ts) together with theorems
settling the specification claims about it.

Conventions: JavaScript strings are Lean `String`s; byte sequences are
`List Nat` with entries below 256; machine words are `Nat` reduced
modulo 2 ^ 32 where overflow matters; JavaScript objects keyed by path
are association lists with unique keys; remote (network) activity is
modelled by an oracle structure plus an explicit trace of issued calls.
-/

/-! ### Content hashing (src/plugin/github.ts, computeSha, lines 458-472) -/

/-- Word size modulus for 32-bit arithmetic. -/
def M32 : Nat := 4294967296

/-- Rotate a 32-bit word (given as a Nat below 2 ^ 32) left by k bits. -/
def rotl (k : Nat) (x : Nat) : Nat :=
  (x * 2 ^ k + x / 2 ^ (32 - k)) % M32

/-- Big-endian 32-bit word from four bytes. -/
def beWord (b0 b1 b2 b3 : Nat) : Nat :=
  ((b0 * 256 + b1) * 256 + b2) * 256 + b3

/-- Group a byte list into big-endian 32-bit words (a trailing group of
fewer than four bytes is dropped; inputs are always block-aligned). -/
def toWords : List Nat → List Nat
  | b0 :: b1 :: b2 :: b3 :: rest => beWord b0 b1 b2 b3 :: toWords rest
  | _ => []

/-- SHA-1 message schedule: extend 16 words to 80. -/
def extendWords (w : List Nat) : List Nat :=
  (List.range 80).foldl
    (fun acc i =>
      if i < 16 then acc ++ [w.getD i 0]
      else acc ++ [rotl 1 ((acc.getD (i - 3) 0) ^^^ (acc.getD (i - 8) 0) ^^^
        (acc.getD (i - 14) 0) ^^^ (acc.getD (i - 16) 0))])
    []

/-- SHA-1 compression of one 64-byte block into the running state. -/
def sha1Compress (h : Nat × Nat × Nat × Nat × Nat) (block : List Nat) :
    Nat × Nat × Nat × Nat × Nat :=
  let w := extendWords (toWords block)
  let (h0, h1, h2, h3, h4) := h
  let (a, b, c, d, e) :=
    (List.range 80).foldl
      (fun st i =>
        let (a, b, c, d, e) := st
        let fk :=
          if i < 20 then ((b &&& c) ||| ((4294967295 - b) &&& d), 1518500249)
          else if i < 40 then (b ^^^ c ^^^ d, 1859775393)
          else if i < 60 then ((b &&& c) ||| (b &&& d) ||| (c &&& d), 2400959708)
          else (b ^^^ c ^^^ d, 3395469782)
        let temp := (rotl 5 a + fk.1 + e + fk.2 + w.getD i 0) % M32
        (temp, a, rotl 30 b, c, d))
      (h0, h1, h2, h3, h4)
  ((h0 + a) % M32, (h1 + b) % M32, (h2 + c) % M32, (h3 + d) % M32, (h4 + e) % M32)

/-- Merkle-Damgard padding: append 0x80, zeros to 56 mod 64, then the
message bit length as eight big-endian bytes. -/
def sha1Pad (msg : List Nat) : List Nat :=
  let len := msg.length
  let padZeros := (119 - len % 64) % 64
  msg ++ [128] ++ List.replicate padZeros 0 ++
    (List.range 8).map (fun i => len * 8 / 2 ^ ((7 - i) * 8) % 256)

/-- Split a byte list into 64-byte blocks; the fuel argument (initially
the list length) only guarantees structural termination. -/
def chunks64Go : Nat → List Nat → List (List Nat)
  | _, [] => []
  | 0, _ => []
  | fuel + 1, b :: rest =>
      (b :: rest).take 64 :: chunks64Go fuel ((b :: rest).drop 64)

/-- Split a byte list into 64-byte blocks. -/
def chunks64 (l : List Nat) : List (List Nat) :=
  chunks64Go l.length l

/-- Serialize a 32-bit word as four big-endian bytes. -/
def wordBytes (w : Nat) : List Nat :=
  [w / 16777216 % 256, w / 65536 % 256, w / 256 % 256, w % 256]

/-- SHA-1 digest of a byte list, as twenty bytes. -/
def sha1Bytes (msg : List Nat) : List Nat :=
  let (h0, h1, h2, h3, h4) :=
    (chunks64 (sha1Pad msg)).foldl sha1Compress
      (1732584193, 4023233417, 2562383102, 271733878, 3285377520)
  wordBytes h0 ++ wordBytes h1 ++ wordBytes h2 ++ wordBytes h3 ++ wordBytes h4

/-- Lower-case hexadecimal digit for a value below 16. -/
def hexDigit (n : Nat) : Char :=
  if n < 10 then Char.ofNat (48 + n) else Char.ofNat (87 + n)

/-- Lower-case hexadecimal rendering of a byte list. -/
def hexString (bs : List Nat) : String :=
  String.mk (bs.foldr (fun b acc => hexDigit (b / 16) :: hexDigit (b % 16) :: acc) [])

/-- SHA-1 digest of a byte list as a lower-case hex string. -/
def sha1Hex (msg : List Nat) : String :=
  hexString (sha1Bytes msg)

/-- UTF-8 encoding of a single character (as Node's Buffer.from performs). -/
def utf8Char (c : Char) : List Nat :=
  let n := c.toNat
  if n < 128 then [n]
  else if n < 2048 then [192 + n / 64, 128 + n % 64]
  else if n < 65536 then [224 + n / 4096, 128 + n / 64 % 64, 128 + n % 64]
  else [240 + n / 262144, 128 + n / 4096 % 64, 128 + n / 64 % 64, 128 + n % 64]

/-- UTF-8 encoding of a string, as the byte list Buffer.from(s) yields. -/
def utf8Str (s : String) : List Nat :=
  s.data.foldr (fun c acc => utf8Char c ++ acc) []

/-- Length of a string in UTF-16 code units: this is what the JavaScript
expression content.length evaluates to (astral-plane characters count
twice), as opposed to the UTF-8 byte count. -/
def utf16Length (s : String) : Nat :=
  s.data.foldl (fun n c => n + (if c.toNat < 65536 then 1 else 2)) 0

/-- Embedding of computeSha (github.ts lines 458-472): SHA-1 of the
header "blob " ++ content.length ++ NUL concatenated with the UTF-8
bytes of the content, where content.length is the JavaScript string
length, i.e. the UTF-16 code-unit count, not the byte count. -/
def computeSha (content : String) : String :=
  sha1Hex (utf8Str ("blob " ++ Nat.repr (utf16Length content) ++ "\x00") ++
    utf8Str content)

/-- Modelled from the spec: the remote store's native blob-addressing
scheme ("matching the remote store's native blob-addressing scheme
exactly"), i.e. git blob addressing, which is the SHA-1 of the header
"blob " ++ byte length ++ NUL concatenated with the content bytes. The
remote store itself is not part of src/, so this definition follows the
spec's words. -/
def gitBlobSha (content : String) : String :=
  sha1Hex (utf8Str ("blob " ++ Nat.repr (utf8Str content).length ++ "\x00") ++
    utf8Str content)

/-! ### Result wrapper (src/plugin/func.ts, lines 48-107) -/

/-- JavaScript values as far as the Result wrapper's truthiness test
observes them (floating-point NaN is out of scope; the numeric case
uses integers, which suffices for the values the claims mention). -/
inductive JSValue
  | vNull
  | vUndef
  | vBool (b : Bool)
  | vNum (n : Int)
  | vStr (s : String)
deriving DecidableEq

/-- JavaScript truthiness: null, undefined, false, 0 and "" are falsy. -/
def truthy : JSValue → Bool
  | .vNull => false
  | .vUndef => false
  | .vBool b => b
  | .vNum n => n != 0
  | .vStr s => s != ""

/-- Variants of the source's Result type: OK carries a value, ERR an
error string. -/
inductive ResultV
  | ok (v : JSValue)
  | err (e : String)
deriving DecidableEq

/-- Embedding of Result.unit (func.ts lines 64-98): the returned object
is the ERR variant exactly when (err || !value) is truthy, i.e. when
the err string is nonempty or the value is falsy. -/
def resultUnit (value : JSValue) (err : String) : ResultV :=
  if err ≠ "" ∨ truthy value = false then .err err else .ok value

/-- Embedding of Result.Ok (func.ts line 62): unit(value) with err = "". -/
def resultOk (value : JSValue) : ResultV :=
  resultUnit value ""

/-- Embedding of Result.Err (func.ts line 60): unit(null as never, err). -/
def resultErr (err : String) : ResultV :=
  resultUnit JSValue.vNull err

/-- OK-variant test for the Result embedding. -/
def isOkV : ResultV → Bool
  | .ok _ => true
  | .err _ => false

/-! ### Change tracker and engine state (src/plugin/github.ts, githubState,
lines 30-61) -/

/-- Embedding of the Modification union (github.ts lines 16-24); each
variant carries the path field, and rename additionally carries
previousPath. -/
inductive Modification
  | update (path : String)
  | create (path : String)
  | delete (path : String)
  | rename (path : String) (previousPath : String)
deriving DecidableEq

/-- Path field of a modification record. -/
def Modification.pathOf : Modification → String
  | .update p => p
  | .create p => p
  | .delete p => p
  | .rename p _ => p

/-- Pending-modification map, keyed by path as the source's plain
object mods is; keys are unique by construction of setMod. -/
abbrev Mods := List (String × Modification)

/-- JavaScript object assignment mods[k] = v on a unique-key
association list: overwrite the entry for k in place if present,
otherwise append a new entry. -/
def setMod : Mods → String → Modification → Mods
  | [], k, v => [(k, v)]
  | e :: rest, k, v =>
      if e.1 = k then (k, v) :: rest else e :: setMod rest k v

/-- Key list of a pending-modification map. -/
def modKeys (m : Mods) : List String :=
  m.map (·.1)

/-- Lookup in a pending-modification map (first entry with the key). -/
def lookupMod (m : Mods) (k : String) : Option Modification :=
  (m.find? (fun e => e.1 == k)).map (·.2)

/-- Remote tree as the source's Repo type (github.ts lines 27-29): a
map from path to blob sha, modelled as an association list; the
optional url field carries no logic and is omitted. -/
abbrev RepoT := List (String × String)

/-- Lookup of repo[path]?.sha. -/
def repoLookup (repo : RepoT) (path : String) : Option String :=
  (repo.find? (fun e => e.1 == path)).map (·.2)

/-- State held by githubState (github.ts lines 30-61): the closure
variables sha, tree and mods. -/
structure GState where
  sha : String
  tree : RepoT
  mods : Mods
deriving DecidableEq

/-- Embedding of state.create (github.ts lines 42-44). -/
def stateCreate (st : GState) (path : String) : GState :=
  { st with mods := setMod st.mods path (.create path) }

/-- Embedding of state.update (github.ts lines 45-47). -/
def stateUpdate (st : GState) (path : String) : GState :=
  { st with mods := setMod st.mods path (.update path) }

/-- Embedding of state.delete (github.ts lines 48-50). -/
def stateDelete (st : GState) (path : String) : GState :=
  { st with mods := setMod st.mods path (.delete path) }

/-- Embedding of state.rename (github.ts lines 51-54): mods[path] is
set to a create record and mods[previousPath] to a delete record. -/
def stateRename (st : GState) (path previousPath : String) : GState :=
  { st with mods :=
      setMod (setMod st.mods path (.create path)) previousPath (.delete previousPath) }

/-- Embedding of state.refresh (github.ts lines 55-59). In the source
the parameters sha and tree shadow the closure variables of the same
names, so the statements sha = sha and tree = tree assign each
parameter to itself and the closure's sha and tree are left untouched;
only mods = empty-object takes effect. The parameters are therefore
unused here, faithfully to the source. -/
def stateRefresh (st : GState) (sha : String) (tree : RepoT) : GState :=
  { st with mods := [] }

/-- Tracker operations, for quantifying over call sequences. -/
inductive TrackerOp
  | create (p : String)
  | update (p : String)
  | delete (p : String)
  | rename (p : String) (q : String)
deriving DecidableEq

/-- Apply one tracker operation to a pending-modification map. -/
def applyOp (m : Mods) : TrackerOp → Mods
  | .create p => setMod m p (.create p)
  | .update p => setMod m p (.update p)
  | .delete p => setMod m p (.delete p)
  | .rename p q => setMod (setMod m p (.create p)) q (.delete q)

/-- Apply a sequence of tracker operations starting from the empty map. -/
def applyOps (ops : List TrackerOp) : Mods :=
  ops.foldl applyOp []

/-! ### Commit message summary (src/plugin/github.ts, summary,
lines 158-170) -/

/-- Embedding of summary (github.ts lines 158-170). -/
def summary (files : List String) : String :=
  if files.length = 0 then "no files"
  else if files.length ≤ 3 then "updated " ++ String.intercalate ", " files
  else "updated " ++ String.intercalate ", " (files.take 3) ++ " and " ++
    Nat.repr (files.length - 3) ++ " more"

/-- Restatement of the claim's description of the summary format, case
by case on the number of paths, for comparison with the source
function. -/
def summarySpec : List String → String
  | [] => "no files"
  | [a] => "updated " ++ a
  | [a, b] => "updated " ++ a ++ ", " ++ b
  | [a, b, c] => "updated " ++ a ++ ", " ++ b ++ ", " ++ c
  | a :: b :: c :: rest =>
      "updated " ++ a ++ ", " ++ b ++ ", " ++ c ++ " and " ++
        Nat.repr rest.length ++ " more"

/-! ### Remote store model and the pull / buildTree / commit pipeline
(src/plugin/github.ts, lines 75-156 and 359-456) -/

/-- File record returned by getFile (github.ts GFile, line 15). -/
structure GFile where
  path : String
  content : String
  sha : String
deriving DecidableEq

/-- Tree-entry record built by createTreeItem (github.ts lines 359-371);
the source's constant fields mode = "100644" and type = "blob" carry no
logic and are omitted; sha = none is the tombstone used for deletions. -/
structure GBlob where
  path : String
  sha : Option String
deriving DecidableEq

/-- Remote calls issued by the engine, with the payloads that the
claims talk about; mutation calls carry their arguments. -/
inductive RCall
  | getRefC
  | getTreeC
  | getFileC (path : String)
  | createBlobC (content : String)
  | createTreeC (entries : List GBlob)
  | createCommitC (message : String)
  | updateRefC (sha : String)
deriving DecidableEq

/-- Remote mutation calls: blob, tree and commit creation and the
reference update; reads are getRef, getTree and getFile. -/
def isMutation : RCall → Bool
  | .createBlobC _ => true
  | .createTreeC _ => true
  | .createCommitC _ => true
  | .updateRefC _ => true
  | _ => false

/-- History-advancing mutation calls (everything heavier than an
unreferenced blob upload). -/
def isHistoryMutation : RCall → Bool
  | .createTreeC _ => true
  | .createCommitC _ => true
  | .updateRefC _ => true
  | _ => false

/-- Call kinds, for injecting a failure into one kind of remote call. -/
inductive RKind
  | getRefK
  | getTreeK
  | getFileK
  | createBlobK
  | createTreeK
  | createCommitK
  | updateRefK
deriving DecidableEq

/-- Oracle for the remote store: the current reference, the responses
of the read calls, the identifiers minted by the creation calls, and
at most one call kind made to fail with the given message. -/
structure Remote where
  refSha : String
  treeOf : String → RepoT
  fileContent : String → String
  fileSha : String → String
  blobShaOf : String → String
  newTreeSha : String
  newCommitSha : String
  failAt : Option RKind
  failMsg : String

/-- Failure gate for one remote call: the call succeeds unless the
oracle injects a failure for its kind. -/
def gate (r : Remote) (k : RKind) : Except String Unit :=
  if r.failAt = some k then .error r.failMsg else .ok ()

/-- Embedding of pull (github.ts lines 82-93): read the current
reference and its tree, filter the tree entries whose sha is missing
from or different in prevTree, fetch each such file, then call
state.refresh. Transport failures would reject the promise before the
refresh and change nothing; the model covers the completed path the
claim describes. -/
def pullM (r : Remote) (prevTree : RepoT) (st : GState) :
    List GFile × GState :=
  let latest := r.refSha
  let tree := r.treeOf latest
  let updated := tree.filter
    (fun e => decide (repoLookup prevTree e.1 ≠ some e.2))
  let res := updated.map
    (fun e => { path := e.1, content := r.fileContent e.1, sha := r.fileSha e.1 })
  (res, stateRefresh st latest tree)

/-- Embedding of buildTree (github.ts lines 373-408): for each create
or update modification, read the local content, upload it with
createBlob (unconditionally), and keep the tree item only when the
locally computed sha differs from repo[path]?.sha; a delete pushes a
tombstone item; a rename contributes nothing. Returns the surviving
items together with the trace of remote calls issued. -/
def buildTreeM (r : Remote) (files : List Modification)
    (getContent : String → String) (repo : RepoT) :
    List GBlob × List RCall :=
  match files with
  | [] => ([], [])
  | mod :: rest =>
      let hd : List GBlob × List RCall :=
        match mod with
        | .create p =>
            let content := getContent p
            if repoLookup repo p ≠ some (computeSha content)
            then ([⟨p, some (r.blobShaOf content)⟩], [.createBlobC content])
            else ([], [.createBlobC content])
        | .update p =>
            let content := getContent p
            if repoLookup repo p ≠ some (computeSha content)
            then ([⟨p, some (r.blobShaOf content)⟩], [.createBlobC content])
            else ([], [.createBlobC content])
        | .delete p => ([⟨p, none⟩], [])
        | .rename _ _ => ([], [])
      let tl := buildTreeM r rest getContent repo
      (hd.1 ++ tl.1, hd.2 ++ tl.2)

/-- Outcome of one commit invocation: the returned or thrown result,
the engine state, the queue, the remote store and the call trace. -/
structure CommitOut where
  res : Except String (String × RepoT)
  st : GState
  q : List (List GBlob)
  remote : Remote
  trace : List RCall

/-- Body of the try block of commit (github.ts lines 115-129): getRef,
createTree, createCommit, updateRef, getTree in that order, each
aborting the run if it fails; updateRef advances the remote reference,
and only after the final getTree succeeds is state.refresh reached. -/
def commitTry (r : Remote) (files : List GBlob) (st : GState) :
    Except String (String × RepoT) × GState × Remote × List RCall :=
  match gate r .getRefK with
  | .error e => (.error e, st, r, [.getRefC])
  | .ok _ =>
    match gate r .createTreeK with
    | .error e => (.error e, st, r, [.getRefC, .createTreeC files])
    | .ok _ =>
      let message := summary (files.map (·.path))
      match gate r .createCommitK with
      | .error e => (.error e, st, r,
          [.getRefC, .createTreeC files, .createCommitC message])
      | .ok _ =>
        match gate r .updateRefK with
        | .error e => (.error e, st, r,
            [.getRefC, .createTreeC files, .createCommitC message,
             .updateRefC r.newCommitSha])
        | .ok _ =>
          let r2 := { r with refSha := r.newCommitSha }
          match gate r2 .getTreeK with
          | .error e => (.error e, st, r2,
              [.getRefC, .createTreeC files, .createCommitC message,
               .updateRefC r.newCommitSha, .getTreeC])
          | .ok _ =>
            let tree := r2.treeOf r.newCommitSha
            (.ok (r.newCommitSha, tree), stateRefresh st r.newCommitSha tree, r2,
              [.getRefC, .createTreeC files, .createCommitC message,
               .updateRefC r.newCommitSha, .getTreeC])

/-- Value and state that a commit invocation with an empty blob list
produces (github.ts lines 96-100): the closure's current sha and tree,
with nothing touched. -/
def commitBase (r : Remote) (st : GState) (q : List (List GBlob)) : CommitOut :=
  ⟨.ok (st.sha, st.tree), st, q, r, []⟩

/-- Embedding of commit (github.ts lines 95-138). An empty blob list
returns early with the current sha and tree. Otherwise the batch is
pushed onto the queue and the front of the queue is shifted off and
run through the try block; a failure is rethrown as "Commit operation
failed: " ++ message. The finally block, when the queue is non-empty,
returns commit([]) — and that recursive call hits the empty-argument
early return at once, which is commitBase (the lemma commitM_nil below
states this inlining is exact); in JavaScript a return inside finally
overrides both the try block's return and the rethrown error. -/
def commitM (r : Remote) (blobs : List GBlob) (st : GState)
    (q : List (List GBlob)) : CommitOut :=
  match blobs with
  | [] => commitBase r st q
  | _ :: _ =>
    match q ++ [blobs] with
    | [] => commitBase r st q
    | files :: q2 =>
      let (res, st2, r2, tr) := commitTry r files st
      let res2 : Except String (String × RepoT) :=
        match res with
        | .error e => .error ("Commit operation failed: " ++ e)
        | .ok v => .ok v
      if q2.isEmpty then ⟨res2, st2, q2, r2, tr⟩
      else
        let fin := commitBase r2 st2 q2
        { fin with trace := tr ++ fin.trace }

/-- The recursive drain call commit([]) is exactly commitBase. -/
theorem commitM_nil (r : Remote) (st : GState) (q : List (List GBlob)) :
    commitM r [] st q = commitBase r st q := rfl

/-- Outcome of a push run: result, state, queue, remote and the
combined trace of buildTree and commit. -/
def pushM (r : Remote) (getContent : String → String) (st : GState)
    (q : List (List GBlob)) : CommitOut :=
  let bt := buildTreeM r (st.mods.map (·.2)) getContent st.tree
  let co := commitM r bt.1 st q
  { co with trace := bt.2 ++ co.trace }

/-! ### Sanity anchors for the hash embedding -/

/-- Validation of the SHA-1 embedding against the standard test vector
for "abc". -/
theorem sha1Hex_abc : sha1Hex (utf8Str "abc") = "a9993e364706816aba3e25717850c26c9cd0d89d" := by
  decide

/-- Agreement of computeSha with git's published blob identifier for
the one-byte content "a". -/
theorem computeSha_a : computeSha "a" = "2e65efe2a145dda7ee51d1741299f848e5bf752e" := by
  decide

/-! ### Claim C8 -/

/-- C8: computeSha is a pure function of its input (hash(c) = hash(c)
for every content string), and distinct trivial inputs have distinct
hashes. -/
theorem hash_deterministic_and_distinct :
    (∀ c : String, computeSha c = computeSha c) ∧ computeSha "a" ≠ computeSha "b" :=
  ⟨fun _ => rfl, by decide⟩

/-! ### Claim C6 -/

/-- C6 (code bug): computeSha does not match the remote store's blob
addressing for every content string. The header uses content.length,
the UTF-16 code-unit count, where git uses the byte length, so the two
schemes agree on ASCII content such as "a" but disagree on the
two-byte one-character content "é", whose UTF-16 length is 1 while its
UTF-8 byte length is 2. -/
theorem computeSha_utf16_mismatch :
    computeSha "é" ≠ gitBlobSha "é" ∧
    utf16Length "é" = 1 ∧ (utf8Str "é").length = 2 ∧
    computeSha "a" = gitBlobSha "a" := by
  refine ⟨by decide, by decide, by decide, by decide⟩

/-! ### Claim C10 -/

/-- C10: Result.Ok yields the OK variant exactly when its argument is
truthy; for the falsy values false, 0 and "" it constructs the ERR
variant (with an empty error string), indistinguishable from a
failure. -/
theorem ok_falsy_is_err :
    (∀ v : JSValue, isOkV (resultOk v) = truthy v) ∧
    resultOk (.vBool false) = ResultV.err "" ∧
    resultOk (.vNum 0) = ResultV.err "" ∧
    resultOk (.vStr "") = ResultV.err "" := by
  refine ⟨fun v => ?_, by decide, by decide, by decide⟩
  unfold resultOk resultUnit
  cases htv : truthy v <;> simp [htv, isOkV]

/-! ### Claim C5 -/

/-- C5 (code bug): state.refresh does not replace the stored snapshot.
Evaluated at a state whose reference is "oldsha" with one pending
modification, refreshing with the new reference "newsha" and a new
tree leaves the stored reference and tree unchanged and only clears
the pending modification set, because the source's parameters shadow
the closure variables and the assignments are self-assignments. -/
theorem refresh_keeps_stale_snapshot :
    (stateRefresh ⟨"oldsha", [("p", "h")], [("q", Modification.update "q")]⟩
        "newsha" [("r", "h2")]).sha = "oldsha" ∧
    (stateRefresh ⟨"oldsha", [("p", "h")], [("q", Modification.update "q")]⟩
        "newsha" [("r", "h2")]).tree = [("p", "h")] ∧
    (stateRefresh ⟨"oldsha", [("p", "h")], [("q", Modification.update "q")]⟩
        "newsha" [("r", "h2")]).mods = [] ∧
    ("oldsha" : String) ≠ "newsha" := by
  refine ⟨rfl, rfl, rfl, by decide⟩

/-! ### Claim C9 -/

/-- C9: the commit message summary is "no files" for an empty path
list, "updated " followed by the verbatim comma-separated list for one
to three paths, and "updated " followed by the first three paths and
" and N more" for longer lists; in particular [a, b, c, d] yields
"updated a, b, c and 1 more". -/
theorem summary_spec_conformance :
    (∀ fs : List String, summary fs = summarySpec fs) ∧
    summary ["a", "b", "c", "d"] = "updated a, b, c and 1 more" := by
  refine ⟨fun fs => ?_, by decide⟩
  match fs with
  | [] => rfl
  | [a] =>
      simp [summary, summarySpec, String.intercalate, String.intercalate.go]
  | [a, b] =>
      simp [summary, summarySpec, String.intercalate, String.intercalate.go,
        String.append_assoc]
  | [a, b, c] =>
      simp [summary, summarySpec, String.intercalate, String.intercalate.go,
        String.append_assoc]
  | a :: b :: c :: d :: rest =>
      have h3 : ¬((a :: b :: c :: d :: rest).length ≤ 3) := by
        simp only [List.length_cons]
        omega
      have h0 : ¬((a :: b :: c :: d :: rest).length = 0) := by
        simp only [List.length_cons]
        omega
      have hl : (a :: b :: c :: d :: rest).length - 3 = rest.length + 1 := by
        simp only [List.length_cons]
        omega
      simp [summary, summarySpec, h0, h3, hl, String.intercalate,
        String.intercalate.go, String.append_assoc, List.take]

/-! ### Claim C7: change-tracker lemmas -/

/-- Key list of an empty pending map. -/
theorem modKeys_nil : modKeys [] = [] := rfl

/-- Key list of a non-empty pending map. -/
theorem modKeys_cons (e : String × Modification) (rest : Mods) :
    modKeys (e :: rest) = e.1 :: modKeys rest := rfl

/-- Keys after an assignment to a key already present are unchanged. -/
theorem modKeys_setMod_mem (m : Mods) (k : String) (v : Modification)
    (h : k ∈ modKeys m) : modKeys (setMod m k v) = modKeys m := by
  induction m with
  | nil => simp [modKeys_nil] at h
  | cons e rest ih =>
      rw [modKeys_cons, List.mem_cons] at h
      by_cases hek : e.1 = k
      · subst hek
        simp [setMod, modKeys_cons]
      · have hk : k ∈ modKeys rest := h.resolve_left (fun hh => hek hh.symm)
        simp [setMod, hek, modKeys_cons, ih hk]

/-- Keys after an assignment to an absent key gain that key at the end. -/
theorem modKeys_setMod_not_mem (m : Mods) (k : String) (v : Modification)
    (h : k ∉ modKeys m) : modKeys (setMod m k v) = modKeys m ++ [k] := by
  induction m with
  | nil => simp [setMod, modKeys_cons, modKeys_nil]
  | cons e rest ih =>
      rw [modKeys_cons, List.mem_cons] at h
      push_neg at h
      have hek : ¬(e.1 = k) := fun hh => h.1 hh.symm
      simp [setMod, hek, modKeys_cons, ih h.2]

/-- Assignment preserves uniqueness of keys. -/
theorem nodup_setMod (m : Mods) (k : String) (v : Modification)
    (h : (modKeys m).Nodup) : (modKeys (setMod m k v)).Nodup := by
  by_cases hk : k ∈ modKeys m
  · rw [modKeys_setMod_mem m k v hk]
    exact h
  · rw [modKeys_setMod_not_mem m k v hk]
    refine h.append (List.nodup_singleton k) ?_
    intro a ha hb
    rw [List.mem_singleton] at hb
    subst hb
    exact hk ha

/-- Each tracker operation preserves uniqueness of keys. -/
theorem nodup_applyOp (m : Mods) (op : TrackerOp)
    (h : (modKeys m).Nodup) : (modKeys (applyOp m op)).Nodup := by
  cases op <;> simp [applyOp] <;>
    first
      | exact nodup_setMod _ _ _ h
      | exact nodup_setMod _ _ _ (nodup_setMod _ _ _ h)

/-- Every state reached from a unique-key state by tracker operations
has unique keys. -/
theorem nodup_foldl_applyOp (ops : List TrackerOp) :
    ∀ m : Mods, (modKeys m).Nodup → (modKeys (ops.foldl applyOp m)).Nodup := by
  induction ops with
  | nil => intro m h; simpa using h
  | cons op rest ih =>
      intro m h
      simpa using ih (applyOp m op) (nodup_applyOp m op h)

/-- Filtering for an absent key yields nothing. -/
theorem filter_key_nil (m : Mods) (k : String) (h : k ∉ modKeys m) :
    m.filter (fun e => e.1 == k) = [] := by
  induction m with
  | nil => rfl
  | cons e rest ih =>
      rw [modKeys_cons, List.mem_cons] at h
      push_neg at h
      simp [List.filter, ih h.2, show (e.1 == k) = false by
        simpa using fun hh => h.1 hh.symm]

/-- After an assignment to a unique-key map, the entries with the
assigned key are exactly the one assigned entry. -/
theorem filter_setMod (m : Mods) (k : String) (v : Modification)
    (h : (modKeys m).Nodup) :
    (setMod m k v).filter (fun e => e.1 == k) = [(k, v)] := by
  induction m with
  | nil => simp [setMod, List.filter]
  | cons e rest ih =>
      rw [modKeys_cons, List.nodup_cons] at h
      by_cases hek : e.1 = k
      · subst hek
        simp [setMod, List.filter, filter_key_nil rest e.1 h.1]
      · simp [setMod, hek, List.filter, show (e.1 == k) = false by simpa using hek,
          ih h.2]

/-- Lookup after an assignment finds the assigned value. -/
theorem lookupMod_setMod_self (m : Mods) (k : String) (v : Modification) :
    lookupMod (setMod m k v) k = some v := by
  induction m with
  | nil => simp [setMod, lookupMod, List.find?]
  | cons e rest ih =>
      by_cases hek : e.1 = k
      · simp [setMod, hek, lookupMod, List.find?]
      · simp [setMod, hek, lookupMod, List.find?,
          show (e.1 == k) = false by simpa using hek] at ih ⊢
        exact ih

/-- Lookup of a different key is unchanged by an assignment. -/
theorem lookupMod_setMod_other (m : Mods) (k k' : String) (v : Modification)
    (h : k' ≠ k) : lookupMod (setMod m k v) k' = lookupMod m k' := by
  induction m with
  | nil =>
      simp [setMod, lookupMod, List.find?,
        show (k == k') = false by simpa using fun hh => h hh.symm]
  | cons e rest ih =>
      by_cases hek : e.1 = k
      · subst hek
        simp [setMod, lookupMod, List.find?,
          show (e.1 == k') = false by simpa using fun hh => h hh.symm]
      · simp [setMod, hek, lookupMod, List.find?] at ih ⊢
        cases hfind : (e.1 == k') <;> simp [hfind] <;> exact ih

/-- C7: for every sequence of recorded operations the pending change
set keeps at most one modification per path; recording Update(p) twice
leaves exactly the one latest entry for p; and a rename desugars to a
pending Create for the new path and a pending Delete for the previous
path, with nothing else stored for them. -/
theorem tracker_last_write_wins (ops : List TrackerOp) (p q : String)
    (hpq : p ≠ q) :
    (modKeys (applyOps ops)).Nodup ∧
    (applyOps (ops ++ [TrackerOp.update p, TrackerOp.update p])).filter
      (fun e => e.1 == p) = [(p, Modification.update p)] ∧
    lookupMod (applyOps (ops ++ [TrackerOp.rename p q])) p =
      some (Modification.create p) ∧
    lookupMod (applyOps (ops ++ [TrackerOp.rename p q])) q =
      some (Modification.delete q) := by
  have hnd : (modKeys (applyOps ops)).Nodup :=
    nodup_foldl_applyOp ops [] (by simp [modKeys])
  refine ⟨hnd, ?_, ?_, ?_⟩
  · rw [applyOps, List.foldl_append]
    show (applyOp (applyOp (applyOps ops) (.update p)) (.update p)).filter _ = _
    simp only [applyOp]
    exact filter_setMod _ p _ (nodup_setMod _ p _ hnd)
  · rw [applyOps, List.foldl_append]
    show lookupMod (applyOp (applyOps ops) (.rename p q)) p = _
    simp only [applyOp]
    rw [lookupMod_setMod_other _ q p _ hpq, lookupMod_setMod_self]
  · rw [applyOps, List.foldl_append]
    show lookupMod (applyOp (applyOps ops) (.rename p q)) q = _
    simp only [applyOp]
    rw [lookupMod_setMod_self]

/-- Witness for C7 at a concrete operation sequence and paths. -/
theorem tracker_last_write_wins_witness :
    (modKeys (applyOps [TrackerOp.create "a", TrackerOp.delete "b"])).Nodup ∧
    (applyOps ([TrackerOp.create "a", TrackerOp.delete "b"] ++
      [TrackerOp.update "x", TrackerOp.update "x"])).filter
      (fun e => e.1 == "x") = [("x", Modification.update "x")] ∧
    lookupMod (applyOps ([TrackerOp.create "a", TrackerOp.delete "b"] ++
      [TrackerOp.rename "x" "y"])) "x" = some (Modification.create "x") ∧
    lookupMod (applyOps ([TrackerOp.create "a", TrackerOp.delete "b"] ++
      [TrackerOp.rename "x" "y"])) "y" = some (Modification.delete "y") :=
  tracker_last_write_wins [TrackerOp.create "a", TrackerOp.delete "b"] "x" "y"
    (by decide)

/-! ### Claim C2: no-op push -/

/-- Modification that the spec calls a no-op: a create or update whose
locally computed content hash equals the last-known remote hash for
that path. Deletes and renames are never no-ops here. -/
def noopMod (repo : RepoT) (g : String → String) : Modification → Prop
  | .create p => repoLookup repo p = some (computeSha (g p))
  | .update p => repoLookup repo p = some (computeSha (g p))
  | .delete _ => False
  | .rename _ _ => False

/-- On a batch consisting only of no-op creates and updates, buildTree
suppresses every tree item, and every remote call it makes is a blob
creation. -/
theorem buildTreeM_noop (r : Remote) (files : List Modification)
    (g : String → String) (repo : RepoT)
    (h : ∀ m ∈ files, noopMod repo g m) :
    (buildTreeM r files g repo).1 = [] ∧
    ∀ c ∈ (buildTreeM r files g repo).2, ∃ s, c = RCall.createBlobC s := by
  induction files with
  | nil => exact ⟨rfl, by simp [buildTreeM]⟩
  | cons mod rest ih =>
      have hmod := h mod (List.mem_cons_self mod rest)
      have hrest := ih (fun m hm => h m (List.mem_cons_of_mem mod hm))
      cases mod with
      | create p =>
          have hno : ¬(repoLookup repo p ≠ some (computeSha (g p))) := by
            simpa [noopMod] using hmod
          simp only [buildTreeM]
          rw [if_neg hno]
          refine ⟨by simp [hrest.1], ?_⟩
          intro c hc
          simp only [List.mem_append, List.mem_singleton] at hc
          rcases hc with hc | hc
          · exact ⟨g p, hc⟩
          · exact hrest.2 c hc
      | update p =>
          have hno : ¬(repoLookup repo p ≠ some (computeSha (g p))) := by
            simpa [noopMod] using hmod
          simp only [buildTreeM]
          rw [if_neg hno]
          refine ⟨by simp [hrest.1], ?_⟩
          intro c hc
          simp only [List.mem_append, List.mem_singleton] at hc
          rcases hc with hc | hc
          · exact ⟨g p, hc⟩
          · exact hrest.2 c hc
      | delete p => exact absurd hmod (by simp [noopMod])
      | rename p q => exact absurd hmod (by simp [noopMod])

/-- C2 as amended: a push whose pending changes are empty or consist
only of creates and updates whose content hash equals the last-known
remote hash returns the current reference and snapshot unchanged,
leaves the state, queue and remote store untouched, and performs no
tree creation, commit creation or reference update — but it does issue
one blob-creation call per pending create or update, because the
source uploads the blob before comparing hashes. -/
theorem push_noop_no_history_mutation (r : Remote) (g : String → String)
    (st : GState) (q : List (List GBlob))
    (h : ∀ e ∈ st.mods, noopMod st.tree g e.2) :
    (pushM r g st q).res = .ok (st.sha, st.tree) ∧
    (pushM r g st q).st = st ∧
    (pushM r g st q).q = q ∧
    (pushM r g st q).remote = r ∧
    (pushM r g st q).trace.filter isHistoryMutation = [] ∧
    ∀ c ∈ (pushM r g st q).trace, ∃ s, c = RCall.createBlobC s := by
  have hbt := buildTreeM_noop r (st.mods.map (·.2)) g st.tree
    (by
      intro m hm
      rw [List.mem_map] at hm
      obtain ⟨e, he, rfl⟩ := hm
      exact h e he)
  have htr : (pushM r g st q).trace =
      (buildTreeM r (st.mods.map (·.2)) g st.tree).2 := by
    simp only [pushM, hbt.1, commitM, commitBase, List.append_nil]
  refine ⟨?_, ?_, ?_, ?_, ?_, ?_⟩
  · simp only [pushM, hbt.1, commitM, commitBase]
  · simp only [pushM, hbt.1, commitM, commitBase]
  · simp only [pushM, hbt.1, commitM, commitBase]
  · simp only [pushM, hbt.1, commitM, commitBase]
  · rw [htr, List.filter_eq_nil_iff]
    intro c hc
    obtain ⟨s, rfl⟩ := hbt.2 c hc
    simp [isHistoryMutation]
  · rw [htr]
    exact hbt.2

/-- Concrete no-op push scenario: one pending update for path a whose
local content "x" hashes to exactly the last-known remote sha. -/
def rNoop : Remote :=
  ⟨"r0", fun _ => [], fun _ => "x", fun _ => "fs", fun _ => "bs", "t1", "c1",
    none, ""⟩

/-- State for the concrete no-op push scenario. -/
def stNoop : GState :=
  ⟨"s0", [("a", computeSha "x")], [("a", Modification.update "a")]⟩

/-- C2 counterexample: in the concrete no-op push scenario the push
still issues a remote mutation call — the blob upload happens before
the hash comparison — so the claim's "zero remote mutation calls (no
blob creation, ...)" is false. -/
theorem push_noop_creates_blob_cex :
    (pushM rNoop (fun _ => "x") stNoop []).trace = [RCall.createBlobC "x"] ∧
    isMutation (RCall.createBlobC "x") = true := by
  refine ⟨by decide, rfl⟩

/-- Witness for C2 at the concrete no-op push scenario. -/
theorem push_noop_no_history_mutation_witness :
    (pushM rNoop (fun _ => "x") stNoop []).res = .ok (stNoop.sha, stNoop.tree) ∧
    (pushM rNoop (fun _ => "x") stNoop []).st = stNoop ∧
    (pushM rNoop (fun _ => "x") stNoop []).q = [] ∧
    (pushM rNoop (fun _ => "x") stNoop []).remote = rNoop ∧
    (pushM rNoop (fun _ => "x") stNoop []).trace.filter isHistoryMutation = [] ∧
    ∀ c ∈ (pushM rNoop (fun _ => "x") stNoop []).trace,
      ∃ s, c = RCall.createBlobC s :=
  push_noop_no_history_mutation rNoop (fun _ => "x") stNoop []
    (by
      intro e he
      simp only [stNoop, List.mem_singleton] at he
      subst he
      simp [noopMod, stNoop, repoLookup, List.find?])

/-! ### Claim C3: commit failure behavior -/

/-- Remote calls of a fully successful commit run, in source order:
getRef, createTree, createCommit, updateRef and a final getTree after
the reference has already been updated. -/
def fullCommitTrace (r : Remote) (files : List GBlob) : List RCall :=
  [.getRefC, .createTreeC files,
   .createCommitC (summary (files.map (·.path))),
   .updateRefC r.newCommitSha, .getTreeC]

/-- Concrete failing run: every call succeeds except the final getTree,
which fails with "boom" after updateRef has already advanced the
reference from "r0" to "c1". -/
def rFailTree : Remote :=
  ⟨"r0", fun _ => [("t", "h")], fun _ => "", fun _ => "", fun _ => "", "t1",
    "c1", some RKind.getTreeK, "boom"⟩

/-- Batch for the failing-run scenarios. -/
def blobsFail : List GBlob := [⟨"p1", some "s1"⟩]

/-- State for the failing-run scenarios. -/
def stFail : GState := ⟨"s0", [], []⟩

/-- C3 counterexample: a remote-store call (the tree fetch) fails and
the run duly reports an error — yet the remote reference has advanced
from "r0" to "c1", and the last network call of the run is that tree
fetch, not the reference update. So "no partial reference advancement
is possible because the reference update is the last network call" is
false of the code. -/
theorem commit_ref_advance_after_failure_cex :
    (commitM rFailTree blobsFail stFail []).res =
      .error "Commit operation failed: boom" ∧
    (commitM rFailTree blobsFail stFail []).remote.refSha = "c1" ∧
    rFailTree.refSha = "r0" ∧ ("c1" : String) ≠ "r0" ∧
    (commitM rFailTree blobsFail stFail []).trace.getLast? =
      some RCall.getTreeC := by
  refine ⟨by rfl, by rfl, by rfl, by decide, by rfl⟩

/-- C3 as amended: when a remote-store call of a commit run fails (with
an empty queue, the only reachable configuration), the run aborts with
an error carrying the underlying failure message, the stored snapshot
and the queue are unchanged, and the reference update is the last
remote mutation — but a tree fetch follows it, so the remote reference
is unchanged except when that final fetch is the failing call, in
which case the run reports an error after the reference has already
advanced. The trace is always a prefix of the successful-run call
sequence. -/
theorem commit_failure_aborts (r : Remote) (st : GState) (blobs : List GBlob)
    (k : RKind) (hb : blobs ≠ []) (hf : r.failAt = some k)
    (hk : k = RKind.getRefK ∨ k = RKind.createTreeK ∨ k = RKind.createCommitK ∨
      k = RKind.updateRefK ∨ k = RKind.getTreeK) :
    (commitM r blobs st []).res =
      .error ("Commit operation failed: " ++ r.failMsg) ∧
    (commitM r blobs st []).st = st ∧
    (commitM r blobs st []).q = [] ∧
    ((commitM r blobs st []).remote.refSha = r.refSha ∨ k = RKind.getTreeK) ∧
    ∃ n, (commitM r blobs st []).trace = (fullCommitTrace r blobs).take n := by
  obtain ⟨b, bs, rfl⟩ : ∃ b bs, blobs = b :: bs := by
    cases blobs with
    | nil => exact absurd rfl hb
    | cons b bs => exact ⟨b, bs, rfl⟩
  rcases hk with rfl | rfl | rfl | rfl | rfl
  · refine ⟨?_, ?_, ?_, Or.inl ?_, ⟨1, ?_⟩⟩ <;>
      simp [commitM, commitTry, gate, hf, fullCommitTrace, commitBase]
  · refine ⟨?_, ?_, ?_, Or.inl ?_, ⟨2, ?_⟩⟩ <;>
      simp [commitM, commitTry, gate, hf, fullCommitTrace, commitBase]
  · refine ⟨?_, ?_, ?_, Or.inl ?_, ⟨3, ?_⟩⟩ <;>
      simp [commitM, commitTry, gate, hf, fullCommitTrace, commitBase]
  · refine ⟨?_, ?_, ?_, Or.inl ?_, ⟨4, ?_⟩⟩ <;>
      simp [commitM, commitTry, gate, hf, fullCommitTrace, commitBase]
  · refine ⟨?_, ?_, ?_, Or.inr rfl, ⟨5, ?_⟩⟩ <;>
      simp [commitM, commitTry, gate, hf, fullCommitTrace, commitBase]

/-- Concrete failing run for the witness: commit creation is denied. -/
def rFailCommit : Remote :=
  ⟨"r0", fun _ => [], fun _ => "", fun _ => "", fun _ => "", "t1", "c1",
    some RKind.createCommitK, "denied"⟩

/-- Witness for C3 at the concrete denied-commit scenario. -/
theorem commit_failure_aborts_witness :
    (commitM rFailCommit [⟨"w", none⟩] stFail []).res =
      .error ("Commit operation failed: " ++ rFailCommit.failMsg) ∧
    (commitM rFailCommit [⟨"w", none⟩] stFail []).st = stFail ∧
    (commitM rFailCommit [⟨"w", none⟩] stFail []).q = [] ∧
    ((commitM rFailCommit [⟨"w", none⟩] stFail []).remote.refSha =
      rFailCommit.refSha ∨ RKind.createCommitK = RKind.getTreeK) ∧
    ∃ n, (commitM rFailCommit [⟨"w", none⟩] stFail []).trace =
      (fullCommitTrace rFailCommit [⟨"w", none⟩]).take n :=
  commit_failure_aborts rFailCommit stFail [⟨"w", none⟩] RKind.createCommitK
    (by decide) rfl (Or.inr (Or.inr (Or.inl rfl)))

/-! ### Claim C4: queue drain -/

/-- Remote oracle for the queue scenario: every call succeeds. -/
def rDrain : Remote :=
  ⟨"r0", fun _ => [("t", "h")], fun _ => "", fun _ => "", fun _ => "", "t1",
    "c1", none, ""⟩

/-- Newly submitted batch in the queue scenario. -/
def batchA : List GBlob := [⟨"apath", some "asha"⟩]

/-- Batch already sitting in the queue in the queue scenario. -/
def batchB : List GBlob := [⟨"bpath", some "bsha"⟩]

/-- State for the queue scenario. -/
def stDrain : GState := ⟨"s0", [("s", "hs")], []⟩

/-- C4 (code bug): commit is invoked with batch A while batch B is
already queued; the run commits B successfully (the trace shows B's
tree being created and the reference advanced to "c1"), and the queue
is then non-empty — but the drain call commit([]) hits the
empty-argument early return, so batch A is left in the queue unrun,
and the returned result is the stale closure reference "s0" rather
than the new commit, contradicting "the next batch is dequeued and run
immediately, continuing until the queue is empty". -/
theorem commit_queue_stranded_batch :
    (commitM rDrain batchA stDrain [batchB]).q = [batchA] ∧
    batchA ≠ [] ∧
    (commitM rDrain batchA stDrain [batchB]).res = .ok ("s0", [("s", "hs")]) ∧
    (commitM rDrain batchA stDrain [batchB]).trace =
      [RCall.getRefC, RCall.createTreeC batchB,
       RCall.createCommitC "updated bpath", RCall.updateRefC "c1",
       RCall.getTreeC] ∧
    (commitM rDrain batchA stDrain [batchB]).remote.refSha = "c1" := by
  refine ⟨by rfl, by decide, by rfl, by rfl, by rfl⟩

/-! ### Claim C1: pull -/

/-- Concrete pull scenario: the last-known snapshot has paths a and b,
the freshly fetched tree has a with a changed hash and no b at all,
and the stored state's reference is "old". -/
def rPull : Remote :=
  ⟨"newref", fun _ => [("a", "h1x")], fun _ => "ca", fun _ => "sa",
    fun _ => "", "", "", none, ""⟩

/-- Last-known tree for the concrete pull scenario. -/
def prevPull : RepoT := [("a", "h1"), ("b", "h2")]

/-- Stored state for the concrete pull scenario. -/
def stPull : GState := ⟨"old", [], []⟩

/-- C1 counterexample: in the concrete pull scenario the path b was
removed remotely, yet the returned file list contains no entry for b
at all (no zero-content tombstone), and the stored snapshot's
reference after the pull is still "old" rather than the newly fetched
reference. -/
theorem pull_no_tombstone_cex :
    (¬∃ f ∈ (pullM rPull prevPull stPull).1, f.path = "b") ∧
    (pullM rPull prevPull stPull).2.sha = "old" ∧
    rPull.refSha = "newref" ∧ ("old" : String) ≠ "newref" := by
  refine ⟨by decide, by decide, by decide, by decide⟩

/-- C1 as amended: pull fetches exactly those paths of the freshly
fetched tree whose hash differs from the last-known tree's entry
(including paths absent from it), each returned file carrying the
remotely fetched content and sha; it returns no tombstones for removed
paths, and the resulting state has its pending modification set
cleared but its stored reference and tree unchanged. -/
theorem pull_fetches_changed_and_clears_mods (r : Remote) (prev : RepoT)
    (st : GState) (p : String) :
    ((∃ f ∈ (pullM r prev st).1, f.path = p) ↔
      (∃ h, (p, h) ∈ r.treeOf r.refSha ∧ repoLookup prev p ≠ some h)) ∧
    (∀ f ∈ (pullM r prev st).1,
      f = ⟨f.path, r.fileContent f.path, r.fileSha f.path⟩) ∧
    (pullM r prev st).2 = { st with mods := [] } := by
  refine ⟨?_, ?_, rfl⟩
  · constructor
    · rintro ⟨f, hf, hfp⟩
      simp only [pullM, List.mem_map, List.mem_filter] at hf
      obtain ⟨e, ⟨het, hcond⟩, rfl⟩ := hf
      simp only at hfp
      subst hfp
      exact ⟨e.2, het, of_decide_eq_true hcond⟩
    · rintro ⟨h, het, hne⟩
      refine ⟨⟨p, r.fileContent p, r.fileSha p⟩, ?_, rfl⟩
      simp only [pullM, List.mem_map, List.mem_filter]
      exact ⟨(p, h), ⟨het, decide_eq_true hne⟩, rfl⟩
  · rintro f hf
    simp only [pullM, List.mem_map, List.mem_filter] at hf
    obtain ⟨e, _, rfl⟩ := hf
    rfl

/-- Witness for C1 at the concrete pull scenario: the changed path a is
fetched, and the state comes back with its pending set cleared. -/
theorem pull_fetches_changed_witness :
    (∃ f ∈ (pullM rPull prevPull stPull).1, f.path = "a") ∧
    (pullM rPull prevPull stPull).2 = { stPull with mods := [] } :=
  ⟨(pull_fetches_changed_and_clears_mods rPull prevPull stPull "a").1.mpr
      ⟨"h1x", by decide, by decide⟩,
    (pull_fetches_changed_and_clears_mods rPull prevPull stPull "a").2.2⟩
